import Mathlib

/-!
# localcommand (src/dockercommand/docker_command.go)

A shallow embedding of the pty-attached `docker exec` session manager and the
properties of its constructor, its shutdown protocol, its metadata accessor and
its terminal-geometry calls.

Conventions of the embedding
* Go strings are Lean strings; `strings.Split` / `strings.Join` are modelled on
  the character lists (the only separator used is the one-byte string `" "`).
* A Go pointer that may be nil is an `Option`; a Go `(value, error)` pair is a
  Lean pair of `Option`s, so that "both" and "neither" are representable.
* Effects on the outside world (signals sent, the kernel's window size, the
  outcome of `pty.Start`, the value of an `errno`) are explicit parameters or
  explicit state.
-/

namespace localcommand

/-! ## Go library functions used by the source -/

/-- Character-level model of `strings.Split(s, sep)` for a one-character
separator: the pieces of `s` between successive occurrences of `sep`
(always at least one piece, empty pieces kept). -/
def splitChars (sep : Char) : List Char → List (List Char)
  | [] => [[]]
  | c :: cs =>
    if c = sep then [] :: splitChars sep cs
    else
      match splitChars sep cs with
      | [] => [[c]]
      | w :: ws => (c :: w) :: ws

/-- Model of `strings.Split(s, sep)` with a one-character separator. -/
def stringsSplit (s : String) (sep : Char) : List String :=
  (splitChars sep s.data).map String.mk

/-- Model of `strings.Join(elems, sep)`. -/
def stringsJoin : List String → String → String
  | [], _ => ""
  | [a], _ => a
  | a :: b :: rest, sep => a ++ sep ++ stringsJoin (b :: rest) sep

/-- Rendering of a `[]string` under the `%s` verb of `fmt`:
the elements separated by single spaces, in square brackets. -/
def fmtStrings (xs : List String) : String :=
  "[" ++ stringsJoin xs " " ++ "]"

/-- Go `error` values that occur in the package. -/
inductive GoError where
  | os (msg : String)
  | errno (code : Nat)
  | wrapped (cause : GoError) (msg : String)
  deriving DecidableEq, Repr

/-- Model of `errors.Wrapf(err, msg)`: nil stays nil, anything else is
annotated and keeps the original error as its cause. -/
def Wrapf : Option GoError → String → Option GoError
  | none, _ => none
  | some e, msg => some (GoError.wrapped e msg)

/-- Model of `errors.Cause`: the innermost error of a chain of wrappers. -/
def GoError.cause : GoError → GoError
  | GoError.wrapped c _ => c.cause
  | e => e

/-! ## Data model -/

/-- A `syscall.Signal` is a small integer. -/
abbrev Signal := Nat

def SIGKILL : Signal := 9
def SIGTERM : Signal := 15

/-- Source constant `DefaultCloseSignal = syscall.SIGTERM`. -/
def DefaultCloseSignal : Signal := SIGTERM

/-- Source constant `DefaultCloseTimeout = 10 * time.Second`
(a `time.Duration` counts nanoseconds). -/
def DefaultCloseTimeout : Int := 10 * 1000000000

/-- The part of `os.Process` the package reads. -/
structure Process where
  Pid : Int
  deriving DecidableEq, Repr

/-- The part of `exec.Cmd` the package reads: `Path` is the program,
`Args` the full argument vector (program name first), `Process` the handle
of the started child (nil until the command has been started). -/
structure Cmd where
  Path : String
  Args : List String
  Process : Option Process
  deriving DecidableEq, Repr

/-- An `os.File`, identified by its descriptor. -/
structure File where
  fd : Nat
  deriving DecidableEq, Repr

/-- A `chan struct{}` value; its open/closed state lives in the world state. -/
inductive Chan where
  | made
  deriving DecidableEq, Repr

/-- Source struct `LocalCommand`. -/
structure LocalCommand where
  command : String
  argv : List String
  closeSignal : Signal
  closeTimeout : Int
  cmd : Option Cmd
  pty : Option File
  ptyClosed : Option Chan
  deriving DecidableEq, Repr

/-! ## New -/

/-- Model of `exec.Command(name, arg...)`: the program and the argument
vector `name :: arg`; the command has not been started. -/
def execCommand (name : String) (arg : List String) : Cmd :=
  { Path := name, Args := name :: arg, Process := none }

/-- Source `New`, line 34: `argsArray`. -/
def argsArray (id args : String) : List String :=
  ["exec", "-it", id] ++ stringsSplit args ' '

/-- Source `New`, lines 34-38: the command that is handed to `pty.Start`.
`stamp` is the value of `time.Now().Format("15040500000")`. -/
def buildCommand (id args : String) (asciinema : Bool) (stamp : String) : Cmd :=
  let cmd := execCommand "docker" (argsArray id args)
  if asciinema then
    execCommand "asciinema"
      ["rec", "-t", id, "-c", stringsJoin ("docker" :: argsArray id args) " ",
        id ++ "_" ++ stamp ++ ".rec"]
  else cmd

/-- Outcome of `pty.Start(cmd)`: either the pty and the started process
(stored by the library into `cmd.Process`), or an error and no pty. -/
inductive StartResult where
  | ok (pty : File) (proc : Process)
  | fail (err : GoError)
  deriving DecidableEq, Repr

/-- Source `New`, lines 33-75. The returned pair is Go's
`(*LocalCommand, error)`; the watcher goroutine started on success is
modelled by `World.afterNew` and `step` below. -/
def New (id args : String) (asciinema : Bool) (stamp : String)
    (ptyStart : Cmd → StartResult) : Option LocalCommand × Option GoError :=
  let cmd := buildCommand id args asciinema stamp
  match ptyStart cmd with
  | StartResult.fail err =>
    (none, Wrapf (some err) ("failed to start command `" ++ fmtStrings cmd.Args ++ "`"))
  | StartResult.ok pty proc =>
    (some
      { command := ""
        argv := []
        closeSignal := DefaultCloseSignal
        closeTimeout := DefaultCloseTimeout
        cmd := some { cmd with Process := some proc }
        pty := some pty
        ptyClosed := some Chan.made },
     none)

/-! ## Close -/

/-- A receive-only `<-chan time.Time` as returned by `closeTimeoutC`:
either the channel of `time.After d`, which delivers one value once `d` has
elapsed, or a freshly made channel nobody ever sends on. -/
inductive TimeChan where
  | after (d : Int)
  | never
  deriving DecidableEq, Repr

/-- Source `closeTimeoutC`, lines 136-142. -/
def closeTimeoutC (lcmd : LocalCommand) : TimeChan :=
  if lcmd.closeTimeout ≥ 0 then TimeChan.after lcmd.closeTimeout
  else TimeChan.never

/-- What happens in the world while `Close` is blocked in its `select`:
the interval of the pending timer elapses, or the watcher closes the
`ptyClosed` channel (the closed-notification fires). -/
inductive Event where
  | elapsed
  | notified
  deriving DecidableEq, Repr

/-- How a run of `Close` against a finite sequence of events ends: it has
returned an `error` value, it is still blocked in the `select`, or it died
of a nil-pointer dereference. -/
inductive Outcome where
  | returned (err : Option GoError)
  | waiting
  | panicked
  deriving DecidableEq, Repr

/-- The observable result of a run of `Close`: the signals it has sent to
the child, in order, and how the run ended. -/
structure CloseRun where
  sent : List Signal
  outcome : Outcome
  deriving DecidableEq, Repr

/-- Source `Close`, lines 86-89: the guarded delivery of `closeSignal`. -/
def closeEntry (lcmd : LocalCommand) : List Signal :=
  match lcmd.cmd with
  | none => []
  | some c =>
    match c.Process with
    | none => []
    | some _ => [lcmd.closeSignal]

/-- Source `Close`, lines 90-97: the `for { select { ... } }` loop, run
against the events of the world. A receive on a nil `ptyClosed` and a
receive on a channel that never delivers do not complete, so the matching
event passes unobserved; `lcmd.cmd.Process.Signal(SIGKILL)` dereferences
`lcmd.cmd` and the process handle without a guard. -/
def closeLoop (lcmd : LocalCommand) : List Signal → List Event → CloseRun
  | sent, [] => { sent := sent, outcome := Outcome.waiting }
  | sent, Event.notified :: rest =>
    match lcmd.ptyClosed with
    | some _ => { sent := sent, outcome := Outcome.returned none }
    | none => closeLoop lcmd sent rest
  | sent, Event.elapsed :: rest =>
    match closeTimeoutC lcmd with
    | TimeChan.never => closeLoop lcmd sent rest
    | TimeChan.after _ =>
      match lcmd.cmd with
      | none => { sent := sent, outcome := Outcome.panicked }
      | some c =>
        match c.Process with
        | none => { sent := sent, outcome := Outcome.panicked }
        | some _ => closeLoop lcmd (sent ++ [SIGKILL]) rest

/-- Source `Close`, lines 85-98. -/
def Close (lcmd : LocalCommand) (events : List Event) : CloseRun :=
  closeLoop lcmd (closeEntry lcmd) events

/-! ## WindowTitleVariables -/

/-- The dynamic values stored in the returned `map[string]interface{}`. -/
inductive Value where
  | str (s : String)
  | strs (xs : List String)
  | int (n : Int)
  deriving DecidableEq, Repr

/-- Source `WindowTitleVariables`, lines 100-106; the map is the list of
its entries, `none` is the nil dereference of `lcmd.cmd.Process.Pid`. -/
def WindowTitleVariables (lcmd : LocalCommand) : Option (List (String × Value)) :=
  match lcmd.cmd with
  | none => none
  | some c =>
    match c.Process with
    | none => none
    | some p =>
      some [("command", Value.str lcmd.command), ("argv", Value.strs lcmd.argv),
        ("pid", Value.int p.Pid)]

/-! ## Terminal geometry -/

/-- The window-size descriptor: four `uint16` fields. -/
structure Winsize where
  row : Nat
  col : Nat
  x : Nat
  y : Nat
  deriving DecidableEq, Repr

/-- Go conversion `uint16(v)` of a 64-bit `int`: the low 16 bits of the
two's-complement bit pattern of `v`. -/
def uint16 (v : Int) : Nat :=
  (v % 2 ^ 64).toNat % 2 ^ 16

/-- Source `ResizeTerminal`, lines 109-119: the descriptor `window`. -/
def resizeWindow (width height : Int) : Winsize :=
  { row := uint16 height, col := uint16 width, x := 0, y := 0 }

/-- The `TIOCSWINSZ` ioctl on the pty: when the call succeeds (`errno = 0`)
the kernel has stored the descriptor as the terminal's size, otherwise the
size is unchanged. -/
def ioctlSetWinsize (errno : Nat) (window tty : Winsize) : Winsize :=
  if errno = 0 then window else tty

/-- Source `ResizeTerminal`, lines 108-131. `errno` is the third result of
the system call, `tty` the size the kernel holds for the pty; the result is
the kernel's size afterwards and the returned `error`. -/
def ResizeTerminal (_lcmd : LocalCommand) (width height : Int) (errno : Nat)
    (tty : Winsize) : Winsize × Option GoError :=
  let window := resizeWindow width height
  let tty' := ioctlSetWinsize errno window tty
  if errno ≠ 0 then (tty', some (GoError.errno errno)) else (tty', none)

/-- Model of `pty.Getsize` of github.com/kr/pty: a `TIOCGWINSZ` ioctl into a
zeroed descriptor, returned as `(rows, cols, err)`. -/
def ptyGetsize (errno : Nat) (tty : Winsize) : Int × Int × Option GoError :=
  let ws : Winsize := if errno = 0 then tty else { row := 0, col := 0, x := 0, y := 0 }
  ((ws.row : Int), (ws.col : Int), if errno ≠ 0 then some (GoError.errno errno) else none)

/-- Source `GetTerminalSize`, lines 132-134. -/
def GetTerminalSize (_lcmd : LocalCommand) (errno : Nat) (tty : Winsize) :
    Int × Int × Option GoError :=
  ptyGetsize errno tty

/-! ## The session as a transition system -/

/-- Program counter of the goroutine started by `New` (lines 65-72):
blocked in `cmd.Wait()`, about to run `lcmd.pty.Close()`, about to run
`close(lcmd.ptyClosed)`, finished. -/
inductive WatcherPc where
  | inWait
  | closePty
  | closeChan
  | done
  deriving DecidableEq, Repr

/-- State of a session and of the part of the world it acts on. -/
structure World where
  lcmd : LocalCommand
  childExited : Bool
  watcher : WatcherPc
  ptyFileClosed : Bool
  ptyClosedSet : Bool
  sent : List Signal
  tty : Winsize
  deriving DecidableEq, Repr

/-- The atomic steps of an execution: the child terminates, the watcher
goroutine advances, or a caller runs a step of one of the methods. -/
inductive Action where
  | childExits
  | watcher
  | closeSendSignal
  | closeOnTimeout
  | closeOnPtyClosed
  | read
  | write
  | resizeTerminal (width height : Int) (errno : Nat)
  | getTerminalSize (errno : Nat)
  deriving DecidableEq, Repr

/-- The world at the moment `New` has started the watcher goroutine. -/
def World.afterNew (lcmd : LocalCommand) (tty : Winsize) : World :=
  { lcmd := lcmd, childExited := false, watcher := WatcherPc.inWait,
    ptyFileClosed := false, ptyClosedSet := false, sent := [], tty := tty }

/-- One step of the goroutine of lines 65-72: `cmd.Wait()` returns only
once the child has exited; then the deferred function closes the pty file
and then the channel. -/
def watcherStep (w : World) : World :=
  match w.watcher with
  | WatcherPc.inWait =>
    if w.childExited then { w with watcher := WatcherPc.closePty } else w
  | WatcherPc.closePty => { w with ptyFileClosed := true, watcher := WatcherPc.closeChan }
  | WatcherPc.closeChan => { w with ptyClosedSet := true, watcher := WatcherPc.done }
  | WatcherPc.done => w

/-- One atomic step; an action that is not enabled leaves the world as it
is. `Read` and `Write` forward to the pty and touch nothing else; the steps
of `Close` are its three statements (lines 88, 95 and 93), any number of
callers may be running them, and a step that would fault sends nothing. -/
def step (w : World) : Action → World
  | Action.childExits => { w with childExited := true }
  | Action.watcher => watcherStep w
  | Action.closeSendSignal => { w with sent := w.sent ++ closeEntry w.lcmd }
  | Action.closeOnTimeout =>
    match closeTimeoutC w.lcmd with
    | TimeChan.never => w
    | TimeChan.after _ =>
      match w.lcmd.cmd with
      | none => w
      | some c =>
        match c.Process with
        | none => w
        | some _ => { w with sent := w.sent ++ [SIGKILL] }
  | Action.closeOnPtyClosed => w
  | Action.read => w
  | Action.write => w
  | Action.resizeTerminal width height errno =>
    { w with tty := (ResizeTerminal w.lcmd width height errno w.tty).1 }
  | Action.getTerminalSize _ => w

/-- The world an execution ends in. -/
def run (w : World) (as : List Action) : World :=
  as.foldl step w

/-- Number of steps of an execution at which `ptyClosed` goes from unset
to set. -/
def firings (w : World) : List Action → Nat
  | [] => 0
  | a :: as =>
    (if w.ptyClosedSet = false ∧ (step w a).ptyClosedSet = true then 1 else 0)
      + firings (step w a) as

/-- What the program counter of the watcher goroutine implies about the
child, the pty file and the `ptyClosed` channel. -/
def watcherInvariant (w : World) : Prop :=
  match w.watcher with
  | WatcherPc.inWait => w.ptyFileClosed = false ∧ w.ptyClosedSet = false
  | WatcherPc.closePty =>
    w.childExited = true ∧ w.ptyFileClosed = false ∧ w.ptyClosedSet = false
  | WatcherPc.closeChan =>
    w.childExited = true ∧ w.ptyFileClosed = true ∧ w.ptyClosedSet = false
  | WatcherPc.done =>
    w.childExited = true ∧ w.ptyFileClosed = true ∧ w.ptyClosedSet = true

/-! ## Reading of the specification used for comparison -/

/-- Written from the specification's words, not from the source:
"splitting on whitespace" yields the maximal runs of non-whitespace
characters. `cur` is the run being collected, reversed. -/
def fieldsChars : List Char → List Char → List (List Char)
  | cur, [] => if cur = [] then [] else [cur.reverse]
  | cur, c :: cs =>
    if c.isWhitespace then
      (if cur = [] then fieldsChars [] cs else cur.reverse :: fieldsChars [] cs)
    else fieldsChars (c :: cur) cs

/-- Written from the specification's words: the fields of a string
separated by whitespace. -/
def splitOnWhitespace (s : String) : List String :=
  (fieldsChars [] s.data).map String.mk

/-- A session as `New` returns it when the pty start succeeds with
descriptor 3 and child pid 4242; used to evaluate the methods. -/
def sampleSession : LocalCommand :=
  { command := "", argv := [], closeSignal := DefaultCloseSignal,
    closeTimeout := DefaultCloseTimeout,
    cmd := some { Path := "docker", Args := ["docker", "exec", "-it", "c1", "sh"],
                  Process := some { Pid := 4242 } },
    pty := some { fd := 3 }, ptyClosed := some Chan.made }

/-- The zero value `LocalCommand{}`. -/
def zeroSession : LocalCommand :=
  { command := "", argv := [], closeSignal := 0, closeTimeout := 0,
    cmd := none, pty := none, ptyClosed := none }

/-- An 80x24 terminal. -/
def tty80x24 : Winsize := { row := 24, col := 80, x := 0, y := 0 }

/-! ## Facts about the string functions -/

theorem splitChars_ne_nil (sep : Char) (l : List Char) : splitChars sep l ≠ [] := by
  cases l with
  | nil => simp [splitChars]
  | cons c cs =>
    unfold splitChars
    split
    · simp
    · split <;> simp

theorem stringsJoin_cons (a : String) (xs : List String) (sep : String) (h : xs ≠ []) :
    stringsJoin (a :: xs) sep = a ++ sep ++ stringsJoin xs sep := by
  cases xs with
  | nil => exact absurd rfl h
  | cons b rest => rfl

theorem stringsJoin_splitChars (l : List Char) :
    stringsJoin ((splitChars ' ' l).map String.mk) " " = String.mk l := by
  induction l with
  | nil => rfl
  | cons c cs ih =>
    unfold splitChars
    split
    · rename_i hc
      subst hc
      rw [List.map_cons, stringsJoin_cons _ _ _ (by simpa using splitChars_ne_nil _ cs), ih]
      apply String.ext
      simp
    · have hne := splitChars_ne_nil ' ' cs
      cases hs : splitChars ' ' cs with
      | nil => exact absurd hs hne
      | cons w ws =>
        rw [hs] at ih
        cases ws with
        | nil =>
          simp only [List.map_cons, List.map_nil, stringsJoin] at ih ⊢
          apply String.ext
          have := congrArg String.data ih
          simpa using this
        | cons v vs =>
          simp only [List.map_cons, stringsJoin] at ih ⊢
          apply String.ext
          have := congrArg String.data ih
          simp only [String.data_append] at this ⊢
          simpa using this

theorem stringsJoin_stringsSplit (s : String) :
    stringsJoin (stringsSplit s ' ') " " = s := by
  unfold stringsSplit
  rw [stringsJoin_splitChars]

theorem splitChars_no_sep (sep : Char) (l : List Char) :
    ∀ p ∈ splitChars sep l, sep ∉ p := by
  induction l with
  | nil => simp [splitChars]
  | cons c cs ih =>
    unfold splitChars
    split
    · intro p hp
      rcases List.mem_cons.1 hp with h | h
      · subst h; simp
      · exact ih p h
    · rename_i hc
      cases hs : splitChars sep cs with
      | nil =>
        intro p hp
        simp at hp
        subst hp
        simpa using fun h => hc h.symm
      | cons w ws =>
        rw [hs] at ih
        intro p hp
        rcases List.mem_cons.1 hp with h | h
        · subst h
          have := ih w (List.mem_cons_self _ _)
          simp only [List.mem_cons, not_or]
          exact ⟨fun h => hc h.symm, this⟩
        · exact ih p (List.mem_cons_of_mem _ h)

theorem splitChars_length (sep : Char) (l : List Char) :
    (splitChars sep l).length = l.count sep + 1 := by
  induction l with
  | nil => simp [splitChars]
  | cons c cs ih =>
    unfold splitChars
    split
    · rename_i hc
      subst hc
      simp [ih]
    · rename_i hc
      have hne := splitChars_ne_nil sep cs
      cases hs : splitChars sep cs with
      | nil => exact absurd hs hne
      | cons w ws =>
        rw [hs] at ih
        simp only [List.length_cons] at ih ⊢
        rw [List.count_cons_of_ne (fun h => hc h.symm)]
        exact ih

/-! ## The constructor -/

/-- C4: `New` returns exactly one of a session and an error. Whatever the
outcome of the pty start is, either it succeeded and `New` returns a session
(holding the started command and the pty) with a nil error, or it failed and
`New` returns no session and an error wrapping the start error; the session
is nil exactly when the error is not. -/
theorem New_session_xor_error (id args : String) (asciinema : Bool) (stamp : String)
    (ptyStart : Cmd → StartResult) :
    (match ptyStart (buildCommand id args asciinema stamp) with
      | StartResult.ok pty proc =>
        ∃ lcmd, New id args asciinema stamp ptyStart = (some lcmd, none)
          ∧ lcmd.pty = some pty
          ∧ lcmd.cmd = some { buildCommand id args asciinema stamp with Process := some proc }
      | StartResult.fail err =>
        ∃ msg, New id args asciinema stamp ptyStart = (none, some (GoError.wrapped err msg))
          ∧ (GoError.wrapped err msg).cause = err.cause)
    ∧ ((New id args asciinema stamp ptyStart).1 = none
        ↔ (New id args asciinema stamp ptyStart).2 ≠ none) := by
  cases h : ptyStart (buildCommand id args asciinema stamp) with
  | ok pty proc => simp [New, h]
  | fail err => simp [New, h, Wrapf, GoError.cause]

/-- C6, as stated, fails: the arguments are cut at single spaces only. A tab
does not separate arguments, and two consecutive spaces produce an empty
argument, while splitting on whitespace gives the two fields in both cases. -/
theorem buildCommand_not_whitespace_fields :
    (buildCommand "c1" "ls\t-la" false "").Args = ["docker", "exec", "-it", "c1", "ls\t-la"]
    ∧ splitOnWhitespace "ls\t-la" = ["ls", "-la"]
    ∧ (buildCommand "c1" "ls\t-la" false "").Args
        ≠ "docker" :: (["exec", "-it", "c1"] ++ splitOnWhitespace "ls\t-la")
    ∧ (buildCommand "c1" "ls  -la" false "").Args = ["docker", "exec", "-it", "c1", "ls", "", "-la"]
    ∧ (buildCommand "c1" "ls  -la" false "").Args
        ≠ "docker" :: (["exec", "-it", "c1"] ++ splitOnWhitespace "ls  -la") := by
  decide

/-- C6, amended: without recording the command is the program `docker` with
the arguments `exec`, `-it`, `id` followed by the pieces of `args` between
its space characters: the pieces contain no space, there is one more piece
than there are spaces in `args`, and joining them with single spaces gives
`args` back (so empty pieces are kept and no other character separates). -/
theorem buildCommand_docker (id args stamp : String) :
    ∃ pieces : List String,
      buildCommand id args false stamp
        = { Path := "docker", Args := "docker" :: "exec" :: "-it" :: id :: pieces,
            Process := none }
      ∧ stringsJoin pieces " " = args
      ∧ (∀ p ∈ pieces, ' ' ∉ p.data)
      ∧ pieces.length = args.data.count ' ' + 1 := by
  refine ⟨stringsSplit args ' ', ?_, stringsJoin_stringsSplit args, ?_, ?_⟩
  · simp [buildCommand, execCommand, argsArray]
  · intro p hp
    unfold stringsSplit at hp
    rcases List.mem_map.1 hp with ⟨q, hq, rfl⟩
    exact splitChars_no_sep ' ' args.data q hq
  · unfold stringsSplit
    rw [List.length_map, splitChars_length]

/-- C7: with recording the command is the program `asciinema` with the
arguments `rec`, `-t`, `id`, `-c`, `C`, `F`, where `C` is the text
`docker exec -it ` followed by `id`, a space and `args` unchanged, and `F`
is `id`, an underscore, the rendered time and `.rec`; joining the split
arguments with single spaces reproduces `args`. -/
theorem buildCommand_asciinema (id args stamp : String) :
    buildCommand id args true stamp
      = { Path := "asciinema",
          Args := ["asciinema", "rec", "-t", id, "-c",
            "docker exec -it " ++ id ++ " " ++ args, id ++ "_" ++ stamp ++ ".rec"],
          Process := none }
    ∧ (buildCommand id args true stamp).Args.length = 7
    ∧ stringsJoin (stringsSplit args ' ') " " = args
    ∧ stringsJoin ("docker" :: argsArray id args) " " = "docker exec -it " ++ id ++ " " ++ args := by
  have hne : stringsSplit args ' ' ≠ [] := by
    unfold stringsSplit
    simpa using splitChars_ne_nil ' ' args.data
  have hjoin : stringsJoin ("docker" :: argsArray id args) " "
      = "docker exec -it " ++ id ++ " " ++ args := by
    unfold argsArray
    simp only [List.cons_append, List.nil_append]
    rw [stringsJoin_cons _ _ _ (by simp), stringsJoin_cons _ _ _ (by simp),
      stringsJoin_cons _ _ _ (by simp), stringsJoin_cons _ _ _ hne, stringsJoin_stringsSplit]
    apply String.ext
    simp
  refine ⟨?_, ?_, stringsJoin_stringsSplit args, hjoin⟩
  · simp only [buildCommand, execCommand, if_true, hjoin]
  · simp [buildCommand, execCommand]

/-! ## Close -/

theorem closeLoop_returned (lcmd : LocalCommand) (events : List Event) :
    ∀ (sent : List Signal) (e : Option GoError),
      (closeLoop lcmd sent events).outcome = Outcome.returned e →
        e = none ∧ Event.notified ∈ events := by
  induction events with
  | nil => intro sent e h; simp [closeLoop] at h
  | cons ev rest ih =>
    intro sent e h
    cases ev with
    | notified =>
      refine ⟨?_, List.mem_cons_self _ _⟩
      unfold closeLoop at h
      split at h
      · simp at h; exact h.symm
      · exact (ih _ _ h).1
    | elapsed =>
      unfold closeLoop at h
      have key : e = none ∧ Event.notified ∈ rest := by
        split at h
        · exact ih _ _ h
        · split at h
          · simp at h
          · split at h
            · simp at h
            · exact ih _ _ h
      exact ⟨key.1, List.mem_cons_of_mem _ key.2⟩

theorem closeLoop_live (lcmd : LocalCommand) (c : Cmd) (p : Process) (ch : Chan)
    (hcmd : lcmd.cmd = some c) (hproc : c.Process = some p)
    (hchan : lcmd.ptyClosed = some ch) (ht : 0 ≤ lcmd.closeTimeout)
    (n : Nat) (rest : List Event) :
    ∀ sent : List Signal,
      closeLoop lcmd sent (List.replicate n Event.elapsed ++ Event.notified :: rest)
          = { sent := sent ++ List.replicate n SIGKILL, outcome := Outcome.returned none }
      ∧ closeLoop lcmd sent (List.replicate n Event.elapsed)
          = { sent := sent ++ List.replicate n SIGKILL, outcome := Outcome.waiting } := by
  have hc : closeTimeoutC lcmd = TimeChan.after lcmd.closeTimeout := by
    simp [closeTimeoutC, ht]
  induction n with
  | zero => intro sent; simp [closeLoop, hchan]
  | succ k ih =>
    intro sent
    have h := ih (sent ++ [SIGKILL])
    simp only [List.replicate_succ, List.cons_append, closeLoop, hc, hcmd, hproc]
    simpa [List.append_assoc] using h

theorem closeLoop_never (lcmd : LocalCommand) (hc : closeTimeoutC lcmd = TimeChan.never)
    (events : List Event) :
    ∀ sent : List Signal,
      (closeLoop lcmd sent events).sent = sent
      ∧ (closeLoop lcmd sent events).outcome ≠ Outcome.panicked
      ∧ (lcmd.ptyClosed ≠ none → Event.notified ∈ events →
          (closeLoop lcmd sent events).outcome = Outcome.returned none) := by
  induction events with
  | nil => intro sent; simp [closeLoop]
  | cons ev rest ih =>
    intro sent
    cases ev with
    | elapsed =>
      simp only [closeLoop, hc]
      refine ⟨(ih sent).1, (ih sent).2.1, fun h1 h2 => (ih sent).2.2 h1 ?_⟩
      simpa using h2
    | notified =>
      cases hch : lcmd.ptyClosed with
      | none =>
        simp only [closeLoop, hch]
        exact ⟨(ih sent).1, (ih sent).2.1, fun h1 _ => absurd rfl h1⟩
      | some ch => simp [closeLoop, hch]

/-- C1: the escalation protocol of `Close`. For a session (a started command
with a live process handle and its `ptyClosed` channel) with
`closeTimeout >= 0`, if the timer fires `n` times before the closed
notification is observed, `Close` has sent `closeSignal` once, first, then
`SIGKILL` exactly `n` times, and returns nil; as long as the notification
has not been observed it is still waiting; and whenever it returns, it
returns nil and the notification has fired. -/
theorem Close_escalation (lcmd : LocalCommand) (c : Cmd) (p : Process) (ch : Chan)
    (hcmd : lcmd.cmd = some c) (hproc : c.Process = some p)
    (hchan : lcmd.ptyClosed = some ch) (ht : 0 ≤ lcmd.closeTimeout)
    (n : Nat) (rest : List Event) :
    Close lcmd (List.replicate n Event.elapsed ++ Event.notified :: rest)
        = { sent := lcmd.closeSignal :: List.replicate n SIGKILL,
            outcome := Outcome.returned none }
    ∧ Close lcmd (List.replicate n Event.elapsed)
        = { sent := lcmd.closeSignal :: List.replicate n SIGKILL,
            outcome := Outcome.waiting }
    ∧ Close lcmd (Event.notified :: rest)
        = { sent := [lcmd.closeSignal], outcome := Outcome.returned none }
    ∧ ∀ (events : List Event) (e : Option GoError),
        (Close lcmd events).outcome = Outcome.returned e →
          e = none ∧ Event.notified ∈ events := by
  have hentry : closeEntry lcmd = [lcmd.closeSignal] := by
    simp [closeEntry, hcmd, hproc]
  have h := closeLoop_live lcmd c p ch hcmd hproc hchan ht n rest [lcmd.closeSignal]
  have h0 := closeLoop_live lcmd c p ch hcmd hproc hchan ht 0 rest [lcmd.closeSignal]
  refine ⟨?_, ?_, ?_, ?_⟩
  · simpa [Close, hentry] using h.1
  · simpa [Close, hentry] using h.2
  · simpa [Close, hentry] using h0.1
  · intro events e he
    exact closeLoop_returned lcmd events _ e he

/-- Witness of C1 on the sample session: two timer expiries, then the
notification. -/
theorem Close_escalation_witness :
    Close sampleSession [Event.elapsed, Event.elapsed, Event.notified]
        = { sent := [SIGTERM, SIGKILL, SIGKILL], outcome := Outcome.returned none }
    ∧ Close sampleSession [Event.elapsed, Event.elapsed]
        = { sent := [SIGTERM, SIGKILL, SIGKILL], outcome := Outcome.waiting }
    ∧ Close sampleSession [Event.notified]
        = { sent := [SIGTERM], outcome := Outcome.returned none } :=
  have h := Close_escalation sampleSession
    { Path := "docker", Args := ["docker", "exec", "-it", "c1", "sh"],
      Process := some { Pid := 4242 } }
    { Pid := 4242 } Chan.made rfl rfl rfl (by decide) 2 []
  ⟨h.1, h.2.1, h.2.2.1⟩

/-- C3: a negative `closeTimeout` disables escalation. With
`closeTimeout < 0`, `closeTimeoutC` is a channel that never delivers, and
whatever happens `Close` sends nothing beyond the initial `closeSignal`
(so no `SIGKILL`, unless that is the configured close signal), never
faults, returns only nil and only once the closed notification has fired,
and does return once it has. With `closeTimeout >= 0` (zero included)
`closeTimeoutC` is the timer channel of `closeTimeout`. -/
theorem closeTimeoutC_negative_never_escalates (lcmd : LocalCommand) :
    (lcmd.closeTimeout < 0 →
      closeTimeoutC lcmd = TimeChan.never
      ∧ ∀ events : List Event,
          (Close lcmd events).sent = closeEntry lcmd
          ∧ (lcmd.closeSignal ≠ SIGKILL → SIGKILL ∉ (Close lcmd events).sent)
          ∧ (Close lcmd events).outcome ≠ Outcome.panicked
          ∧ (∀ e, (Close lcmd events).outcome = Outcome.returned e →
              e = none ∧ Event.notified ∈ events)
          ∧ (lcmd.ptyClosed ≠ none → Event.notified ∈ events →
              (Close lcmd events).outcome = Outcome.returned none))
    ∧ (0 ≤ lcmd.closeTimeout → closeTimeoutC lcmd = TimeChan.after lcmd.closeTimeout) := by
  constructor
  · intro hneg
    have hc : closeTimeoutC lcmd = TimeChan.never := by
      simp [closeTimeoutC, not_le.mpr hneg]
    refine ⟨hc, fun events => ?_⟩
    have h := closeLoop_never lcmd hc events (closeEntry lcmd)
    refine ⟨h.1, ?_, h.2.1, fun e he => closeLoop_returned lcmd events _ e he, h.2.2⟩
    intro hsig hmem
    have hsent : (Close lcmd events).sent = closeEntry lcmd := h.1
    rw [hsent] at hmem
    unfold closeEntry at hmem
    split at hmem
    · simp at hmem
    · split at hmem
      · simp at hmem
      · simp at hmem
        exact hsig hmem.symm
  · intro hpos
    simp [closeTimeoutC, hpos]

/-- Witness of C3: the sample session with `closeTimeout = -1` sends only
`SIGTERM` however often an interval elapses, and the zero timeout gives a
timer channel. -/
theorem closeTimeoutC_negative_never_escalates_witness :
    (closeTimeoutC { sampleSession with closeTimeout := -1 } = TimeChan.never
      ∧ (Close { sampleSession with closeTimeout := -1 }
          [Event.elapsed, Event.elapsed, Event.elapsed]).sent = [SIGTERM]
      ∧ (Close { sampleSession with closeTimeout := -1 }
          [Event.elapsed, Event.elapsed, Event.notified]).outcome = Outcome.returned none)
    ∧ closeTimeoutC { sampleSession with closeTimeout := 0 } = TimeChan.after 0 :=
  have h := closeTimeoutC_negative_never_escalates { sampleSession with closeTimeout := -1 }
  have h0 := closeTimeoutC_negative_never_escalates { sampleSession with closeTimeout := 0 }
  ⟨⟨(h.1 (by decide)).1,
    ((h.1 (by decide)).2 [Event.elapsed, Event.elapsed, Event.elapsed]).1,
    ((h.1 (by decide)).2 [Event.elapsed, Event.elapsed, Event.notified]).2.2.2.2
      (by decide) (by decide)⟩,
   h0.2 (by decide)⟩

/-- C9, evaluated: the `SIGKILL` sent on timer expiry is not guarded. On the
zero value of `LocalCommand`, and on a session whose command is nil or has
no process handle, the initial signal is skipped (nothing is sent) but the
first timer expiry ends `Close` in a nil-pointer dereference. -/
theorem Close_timeout_without_handle_faults :
    closeEntry zeroSession = []
    ∧ Close zeroSession [Event.elapsed] = { sent := [], outcome := Outcome.panicked }
    ∧ Close { sampleSession with cmd := none } [Event.elapsed, Event.notified]
        = { sent := [], outcome := Outcome.panicked }
    ∧ Close { sampleSession with cmd := some (execCommand "docker" ["exec", "-it", "c1", "sh"]) }
          [Event.elapsed, Event.notified]
        = { sent := [], outcome := Outcome.panicked } := by
  decide

/-! ## The watcher and the closed notification -/

theorem step_other_keeps (w : World) (a : Action) (ha : a ≠ Action.watcher) :
    (step w a).ptyClosedSet = w.ptyClosedSet
    ∧ (step w a).ptyFileClosed = w.ptyFileClosed
    ∧ (step w a).watcher = w.watcher
    ∧ (w.childExited = true → (step w a).childExited = true) := by
  cases a with
  | watcher => exact absurd rfl ha
  | closeOnTimeout =>
    simp only [step]
    split
    · simp
    · split
      · simp
      · split <;> simp
  | _ => simp [step]

theorem step_set_stays (w : World) (a : Action) (h : w.ptyClosedSet = true) :
    (step w a).ptyClosedSet = true := by
  by_cases ha : a = Action.watcher
  · subst ha
    simp only [step, watcherStep]
    split
    · split <;> simp [h]
    · simp [h]
    · simp
    · simp [h]
  · rw [(step_other_keeps w a ha).1]; exact h

theorem step_watcherInvariant (w : World) (a : Action) (h : watcherInvariant w) :
    watcherInvariant (step w a) := by
  by_cases ha : a = Action.watcher
  · subst ha
    unfold watcherInvariant at h
    simp only [step, watcherStep]
    cases hw : w.watcher with
    | inWait =>
      rw [hw] at h
      by_cases hx : w.childExited = true
      · simp [hx, watcherInvariant, h.1, h.2]
      · simp [hx, watcherInvariant, hw, h.1, h.2]
    | closePty =>
      rw [hw] at h
      simp [watcherInvariant, h.1, h.2.2]
    | closeChan =>
      rw [hw] at h
      simp [watcherInvariant, h.1, h.2.1]
    | done =>
      rw [hw] at h
      simp [watcherInvariant, hw, h.1, h.2.1, h.2.2]
  · have k := step_other_keeps w a ha
    unfold watcherInvariant at h ⊢
    rw [k.2.2.1, k.1, k.2.1]
    cases hw : w.watcher with
    | inWait => rw [hw] at h; exact h
    | closePty => rw [hw] at h; exact ⟨k.2.2.2 h.1, h.2⟩
    | closeChan => rw [hw] at h; exact ⟨k.2.2.2 h.1, h.2⟩
    | done => rw [hw] at h; exact ⟨k.2.2.2 h.1, h.2⟩

theorem run_watcherInvariant (as : List Action) :
    ∀ w : World, watcherInvariant w → watcherInvariant (run w as) := by
  induction as with
  | nil => intro w h; exact h
  | cons a rest ih =>
    intro w h
    exact ih (step w a) (step_watcherInvariant w a h)

theorem firings_of_set (as : List Action) :
    ∀ w : World, w.ptyClosedSet = true → firings w as = 0 := by
  induction as with
  | nil => intro w _; rfl
  | cons a rest ih =>
    intro w h
    simp [firings, h, ih (step w a) (step_set_stays w a h)]

theorem firings_le_one (as : List Action) : ∀ w : World, firings w as ≤ 1 := by
  induction as with
  | nil => intro w; simp [firings]
  | cons a rest ih =>
    intro w
    unfold firings
    split
    · rename_i hflip
      rw [firings_of_set rest (step w a) hflip.2]
    · have := ih (step w a)
      omega

/-- C2: the closed notification is fired by the watcher only. In every
execution from the state in which `New` returns a session, `ptyClosed` goes
from unset to set at most once and never back; when it is set the watcher
has finished, so `cmd.Wait` has returned, the child has exited and the pty
file has been closed; the pty file is closed only after `cmd.Wait` has
returned; and no step other than the watcher's (no step of `Close`, `Read`,
`Write`, `ResizeTerminal` or `GetTerminalSize`) changes `ptyClosed` or
closes the pty. -/
theorem ptyClosed_set_by_watcher_only (lcmd : LocalCommand) (tty : Winsize)
    (as : List Action) :
    firings (World.afterNew lcmd tty) as ≤ 1
    ∧ ((run (World.afterNew lcmd tty) as).ptyClosedSet = true →
        (run (World.afterNew lcmd tty) as).watcher = WatcherPc.done
        ∧ (run (World.afterNew lcmd tty) as).childExited = true
        ∧ (run (World.afterNew lcmd tty) as).ptyFileClosed = true)
    ∧ ((run (World.afterNew lcmd tty) as).ptyFileClosed = true →
        (run (World.afterNew lcmd tty) as).watcher ≠ WatcherPc.inWait
        ∧ (run (World.afterNew lcmd tty) as).childExited = true)
    ∧ (∀ a : Action, a ≠ Action.watcher →
        (step (run (World.afterNew lcmd tty) as) a).ptyClosedSet
            = (run (World.afterNew lcmd tty) as).ptyClosedSet
        ∧ (step (run (World.afterNew lcmd tty) as) a).ptyFileClosed
            = (run (World.afterNew lcmd tty) as).ptyFileClosed)
    ∧ (∀ a : Action, (run (World.afterNew lcmd tty) as).ptyClosedSet = true →
        (step (run (World.afterNew lcmd tty) as) a).ptyClosedSet = true) := by
  have hinv : watcherInvariant (run (World.afterNew lcmd tty) as) :=
    run_watcherInvariant as _ (by simp [watcherInvariant, World.afterNew])
  refine ⟨firings_le_one as _, ?_, ?_, ?_, ?_⟩
  · intro hset
    unfold watcherInvariant at hinv
    cases hw : (run (World.afterNew lcmd tty) as).watcher with
    | inWait => rw [hw] at hinv; rw [hinv.2] at hset; exact absurd hset (by decide)
    | closePty => rw [hw] at hinv; rw [hinv.2.2] at hset; exact absurd hset (by decide)
    | closeChan => rw [hw] at hinv; rw [hinv.2.2] at hset; exact absurd hset (by decide)
    | done => rw [hw] at hinv; exact ⟨rfl, hinv.1, hinv.2.1⟩
  · intro hclosed
    unfold watcherInvariant at hinv
    cases hw : (run (World.afterNew lcmd tty) as).watcher with
    | inWait => rw [hw] at hinv; rw [hinv.1] at hclosed; exact absurd hclosed (by decide)
    | closePty => rw [hw] at hinv; rw [hinv.2.1] at hclosed; exact absurd hclosed (by decide)
    | closeChan => rw [hw] at hinv; exact ⟨by simp, hinv.1⟩
    | done => rw [hw] at hinv; exact ⟨by simp, hinv.1⟩
  · intro a ha
    exact ⟨(step_other_keeps _ a ha).1, (step_other_keeps _ a ha).2.1⟩
  · intro a hset
    exact step_set_stays _ a hset

/-- Witness of C2: the child exits while `Close` is running; the watcher
closes the pty, then the channel, and only then is `ptyClosed` set. -/
theorem ptyClosed_set_by_watcher_only_witness :
    (run (World.afterNew sampleSession tty80x24)
        [Action.closeSendSignal, Action.closeOnTimeout, Action.childExits,
          Action.watcher, Action.read, Action.watcher, Action.watcher]).ptyClosedSet = true
    ∧ (run (World.afterNew sampleSession tty80x24)
        [Action.closeSendSignal, Action.closeOnTimeout, Action.childExits,
          Action.watcher, Action.read, Action.watcher, Action.watcher]).watcher = WatcherPc.done
    ∧ (run (World.afterNew sampleSession tty80x24)
        [Action.closeSendSignal, Action.closeOnTimeout, Action.childExits,
          Action.watcher, Action.read, Action.watcher, Action.watcher]).childExited = true
    ∧ (run (World.afterNew sampleSession tty80x24)
        [Action.closeSendSignal, Action.closeOnTimeout, Action.childExits,
          Action.watcher, Action.read, Action.watcher, Action.watcher]).ptyFileClosed = true
    ∧ firings (World.afterNew sampleSession tty80x24)
        [Action.closeSendSignal, Action.closeOnTimeout, Action.childExits,
          Action.watcher, Action.read, Action.watcher, Action.watcher] = 1 :=
  have h := ptyClosed_set_by_watcher_only sampleSession tty80x24
    [Action.closeSendSignal, Action.closeOnTimeout, Action.childExits,
      Action.watcher, Action.read, Action.watcher, Action.watcher]
  ⟨by decide, (h.2.1 (by decide)).1, (h.2.1 (by decide)).2.1, (h.2.1 (by decide)).2.2,
    by decide⟩

/-! ## The metadata accessor -/

/-- C8, evaluated: on every session `New` returns, `WindowTitleVariables`
has the three keys and the child's pid, but `command` is the empty string
and `argv` is empty, while the spawned invocation has a program name and a
non-empty argument vector: `New` never fills the two fields. -/
theorem WindowTitleVariables_after_New (id args : String) (asciinema : Bool)
    (stamp : String) (pty : File) (proc : Process) :
    ∃ lcmd c,
      New id args asciinema stamp (fun _ => StartResult.ok pty proc) = (some lcmd, none)
      ∧ WindowTitleVariables lcmd
          = some [("command", Value.str ""), ("argv", Value.strs []),
              ("pid", Value.int proc.Pid)]
      ∧ lcmd.cmd = some c
      ∧ c.Path = (if asciinema then "asciinema" else "docker")
      ∧ c.Path ≠ ""
      ∧ c.Args ≠ [] := by
  refine ⟨_, _, rfl, rfl, rfl, ?_, ?_, ?_⟩
  · cases asciinema <;> simp [buildCommand, execCommand]
  · cases asciinema <;> simp [buildCommand, execCommand]
  · cases asciinema <;> simp [buildCommand, execCommand]

/-! ## Terminal geometry -/

theorem uint16_eq_emod (v : Int) : uint16 v = (v % 65536).toNat := by
  unfold uint16
  omega

/-- C10: the descriptor handed to the set-window-size call is
`(height mod 2^16, width mod 2^16, 0, 0)` for all integers, every field is
below `2^16`, its rows and columns equal `height` and `width` exactly when
both lie in `0..65535`, a successful call leaves the kernel holding this
descriptor, and `ResizeTerminal` returns nil exactly when `errno` is 0 and
that `errno` otherwise. -/
theorem ResizeTerminal_descriptor (lcmd : LocalCommand) (width height : Int)
    (errno : Nat) (tty : Winsize) :
    resizeWindow width height
        = { row := (height % 2 ^ 16).toNat, col := (width % 2 ^ 16).toNat, x := 0, y := 0 }
    ∧ (resizeWindow width height).row < 2 ^ 16
    ∧ (resizeWindow width height).col < 2 ^ 16
    ∧ ((((resizeWindow width height).row : Int) = height
          ∧ ((resizeWindow width height).col : Int) = width)
        ↔ (0 ≤ width ∧ width ≤ 65535 ∧ 0 ≤ height ∧ height ≤ 65535))
    ∧ (ResizeTerminal lcmd width height 0 tty).1 = resizeWindow width height
    ∧ ((ResizeTerminal lcmd width height errno tty).2 = none ↔ errno = 0)
    ∧ (errno = 0
        ∨ (ResizeTerminal lcmd width height errno tty).2 = some (GoError.errno errno)) := by
  have hh := uint16_eq_emod height
  have hw := uint16_eq_emod width
  refine ⟨?_, ?_, ?_, ?_, ?_, ?_, ?_⟩
  · simp only [resizeWindow, hh, hw]; norm_num
  · simp only [resizeWindow, hh]; omega
  · simp only [resizeWindow, hw]; omega
  · simp only [resizeWindow, hh, hw]; omega
  · simp [ResizeTerminal, ioctlSetWinsize]
  · by_cases h : errno = 0 <;> simp [ResizeTerminal, h]
  · by_cases h : errno = 0
    · exact Or.inl h
    · exact Or.inr (by simp [ResizeTerminal, h])

/-- C5, as stated, fails: after `ResizeTerminal(80, 24)` succeeds,
`GetTerminalSize` returns `(24, 80, nil)`, rows first, not `(80, 24, nil)`. -/
theorem GetTerminalSize_after_resize_80_24 :
    (ResizeTerminal sampleSession 80 24 0 tty80x24).2 = none
    ∧ GetTerminalSize sampleSession 0 (ResizeTerminal sampleSession 80 24 0 tty80x24).1
        = (24, 80, none)
    ∧ GetTerminalSize sampleSession 0 (ResizeTerminal sampleSession 80 24 0 tty80x24).1
        ≠ (80, 24, none) := by
  decide

/-- C5, amended: for width and height in `0..65535`, when both platform
calls succeed, `ResizeTerminal(width, height)` followed by `GetTerminalSize`
returns `(height, width, nil)`: the rows first, then the columns. -/
theorem GetTerminalSize_after_ResizeTerminal (lcmd : LocalCommand) (width height : Int)
    (tty : Winsize) (hw0 : 0 ≤ width) (hw1 : width ≤ 65535) (hh0 : 0 ≤ height)
    (hh1 : height ≤ 65535) :
    (ResizeTerminal lcmd width height 0 tty).2 = none
    ∧ GetTerminalSize lcmd 0 (ResizeTerminal lcmd width height 0 tty).1
        = (height, width, none) := by
  have hh := uint16_eq_emod height
  have hw := uint16_eq_emod width
  simp only [ResizeTerminal, GetTerminalSize, ptyGetsize, ioctlSetWinsize, resizeWindow,
    hh, hw]
  refine ⟨by simp, ?_⟩
  simp only [if_true, ne_eq, not_true_eq_false, if_false, Prod.mk.injEq, and_true]
  constructor <;> omega

/-- Witness of the amended C5 at width 132 and height 43. -/
theorem GetTerminalSize_after_ResizeTerminal_witness :
    GetTerminalSize sampleSession 0 (ResizeTerminal sampleSession 132 43 0 tty80x24).1
      = (43, 132, none) :=
  (GetTerminalSize_after_ResizeTerminal sampleSession 132 43 tty80x24
    (by decide) (by decide) (by decide) (by decide)).2

end localcommand
